import Mathlib

/-!
# Verification of the ggcache distributed key-value cache

Shallow embedding of the core of the `anthdm/ggcache` repository:

* the wire protocol codec (`proto` package: `CommandSet.Bytes`, `CommandGet.Bytes`,
  `ResponseSet.Bytes`, `ResponseGet.Bytes`, `ParseCommand`, `parseSetCommand`,
  `parseGetCommand`, `ParseSetResponse`, `ParseGetResponse`),
* the in-memory cache store (`cache.go`: `Cache.Get`, `Cache.Set`, `Cache.Has`,
  `Cache.Delete`, with the TTL-expiry goroutine modelled as an explicit pending
  timer that a scheduler may fire once its deadline has passed),
* the connection handler's command dispatch (`example/server.go`:
  `handleGetCommand`, `handleSetCommand`) and the replication fan-out through
  `client.Client.Set`.

Bytes are modelled as `List Nat` (each element a byte value), Go `int`/`int32`/
`time.Duration` as `Int` with explicit two's-complement truncation where the
source converts, and fallible Go functions as `Option`/`Except`-returning
functions.  Go runtime panics (e.g. `make([]byte, n)` with negative `n`) are a
distinguished outcome, separate from explicitly returned errors.
-/

namespace GGCache

/-- Byte strings ([]byte in Go) are lists of byte values. -/
abbrev Bytes := List Nat

/-! ## Status and command tag constants (proto package) -/

/-- `StatusNone Status = iota` -/
def statusNone : Nat := 0
/-- `StatusOK` -/
def statusOK : Nat := 1
/-- `StatusError` -/
def statusError : Nat := 2
/-- `StatusKeyNotFound` -/
def statusKeyNotFound : Nat := 3

/-- `CmdNonce Command = iota` -/
def cmdNonce : Nat := 0
/-- `CmdSet` -/
def cmdSet : Nat := 1
/-- `CmdGet` -/
def cmdGet : Nat := 2
/-- `CmdDel` -/
def cmdDel : Nat := 3
/-- `CmdJoin` -/
def cmdJoin : Nat := 4

/-! ## Wire values -/

/-- `type CommandSet struct { Key, Value []byte; TTL int }`.
Go's `int` is a signed machine integer, modelled as `Int`. -/
structure CommandSet where
  Key : Bytes
  Value : Bytes
  TTL : Int
deriving DecidableEq, Repr

/-- `type CommandGet struct { Key []byte }` -/
structure CommandGet where
  Key : Bytes
deriving DecidableEq, Repr

/-- `type ResponseSet struct { Status Status }`; `Status` is a Go `byte`. -/
structure ResponseSet where
  Status : Nat
deriving DecidableEq, Repr

/-- `type ResponseGet struct { Status Status; Value []byte }` -/
structure ResponseGet where
  Status : Nat
  Value : Bytes
deriving DecidableEq, Repr

/-- The dynamic result type of `ParseCommand` (Go returns `any`). -/
inductive ParsedCommand where
  | pSet (c : CommandSet)
  | pGet (c : CommandGet)
  | pJoin
deriving DecidableEq, Repr

/-! ## Little-endian 32-bit integers

`encoding/binary.Write(buf, binary.LittleEndian, x)` for an `int32` lays down
the 4 bytes of the two's-complement representation, least significant first
(`byte(v)`, `byte(v >> 8)`, `byte(v >> 16)`, `byte(v >> 24)`). -/

/-- The unsigned 32-bit pattern of a signed integer: two's-complement
truncation, `n mod 2^32`. -/
def toUint32 (n : Int) : Nat := (n % (2 ^ 32 : Nat)).toNat

/-- `binary.LittleEndian.PutUint32`: the four bytes of `u`, least significant
first, exactly as `encoding/binary` computes them by shifting. -/
def putUint32LE (u : Nat) : List Nat :=
  [u % 256, u / 2 ^ 8 % 256, u / 2 ^ 16 % 256, u / 2 ^ 24 % 256]

/-- The wire bytes of an `int32` written little-endian. -/
def int32LE (n : Int) : List Nat := putUint32LE (toUint32 n)

/-- Reassemble the unsigned 32-bit value from 4 little-endian bytes
(`binary.LittleEndian.Uint32`). -/
def uint32OfLE (bs : List Nat) : Nat :=
  bs.getD 0 0 + 2 ^ 8 * bs.getD 1 0 + 2 ^ 16 * bs.getD 2 0 + 2 ^ 24 * bs.getD 3 0

/-- Interpret an unsigned 32-bit pattern as a signed `int32`. -/
def int32OfUint32 (u : Nat) : Int :=
  if u < 2 ^ 31 then (u : Int) else (u : Int) - 2 ^ 32

/-- Read an `int32` from 4 little-endian bytes. -/
def int32OfLE (bs : List Nat) : Int := int32OfUint32 (uint32OfLE bs)

/-! ## Encoders (the `Bytes()` methods)

Each method allocates a `bytes.Buffer` and issues a sequence of
`binary.Write` calls; a `binary.Write` of a byte appends one byte, of an
`int32` appends its 4 little-endian bytes, and of a `[]byte` appends the
slice verbatim. -/

/-- `func (c *CommandSet) Bytes() []byte`. -/
def CommandSet.bytes (c : CommandSet) : List Nat :=
  let buf : List Nat := []
  -- binary.Write(buf, binary.LittleEndian, CmdSet)
  let buf := buf ++ [cmdSet]
  -- keyLen := int32(len(c.Key)); binary.Write(buf, binary.LittleEndian, keyLen)
  let buf := buf ++ int32LE (Int.ofNat c.Key.length)
  -- binary.Write(buf, binary.LittleEndian, c.Key)
  let buf := buf ++ c.Key
  -- valueLen := int32(len(c.Value)); binary.Write(buf, ..., valueLen)
  let buf := buf ++ int32LE (Int.ofNat c.Value.length)
  -- binary.Write(buf, binary.LittleEndian, c.Value)
  let buf := buf ++ c.Value
  -- binary.Write(buf, binary.LittleEndian, int32(c.TTL))
  let buf := buf ++ int32LE c.TTL
  buf

/-- `func (c *CommandGet) Bytes() []byte`. -/
def CommandGet.bytes (c : CommandGet) : List Nat :=
  let buf : List Nat := []
  let buf := buf ++ [cmdGet]
  let buf := buf ++ int32LE (Int.ofNat c.Key.length)
  let buf := buf ++ c.Key
  buf

/-- The bytes the follower writes to join a leader: `dialLeader` does
`binary.Write(conn, binary.LittleEndian, proto.CmdJoin)` — a single byte. -/
def commandJoinBytes : List Nat := [cmdJoin]

/-- `func (r ResponseSet) Bytes() []byte`: the single status byte. -/
def ResponseSet.bytes (r : ResponseSet) : List Nat := [r.Status % 256]

/-- `func (r *ResponseGet) Bytes() []byte`: status byte, `int32` value length,
value bytes. -/
def ResponseGet.bytes (r : ResponseGet) : List Nat :=
  let buf : List Nat := []
  let buf := buf ++ [r.Status % 256]
  let buf := buf ++ int32LE (Int.ofNat r.Value.length)
  let buf := buf ++ r.Value
  buf

/-! ## Decoders

`binary.Read(r, order, data)` performs `io.ReadFull` of `size(data)` bytes:
when the source holds at least that many bytes it consumes exactly them and
fills `data`; otherwise it consumes whatever is left, returns an error and
leaves `data` unchanged.  `readFull s n` returns `(some taken, rest)` on
success and `(none, [])` on a short read. -/

/-- `io.ReadFull` over a list source. -/
def readFull (s : List Nat) (n : Nat) : Option (List Nat) × List Nat :=
  if n ≤ s.length then (some (s.take n), s.drop n) else (none, [])

/-- `func parseSetCommand(r io.Reader) *CommandSet`.

Every `binary.Read` error is discarded, so a short read leaves the
destination at its previous (zero) value and parsing continues.  The one
non-silent outcome is a Go runtime panic: `make([]byte, n)` with negative
`n` panics, modelled as `none`. -/
def parseSetCommand (s : List Nat) : Option (CommandSet × List Nat) :=
  -- var keyLen int32; binary.Read(r, binary.LittleEndian, &keyLen)
  let p1 := readFull s 4
  let keyLen : Int := match p1.1 with
    | some bs => int32OfLE bs
    | none => 0
  -- cmd.Key = make([]byte, keyLen): panics when keyLen < 0
  if keyLen < 0 then none
  else
    -- binary.Read(r, binary.LittleEndian, &cmd.Key)
    let p2 := readFull p1.2 keyLen.toNat
    let key : Bytes := match p2.1 with
      | some bs => bs
      | none => List.replicate keyLen.toNat 0
    let p3 := readFull p2.2 4
    let valueLen : Int := match p3.1 with
      | some bs => int32OfLE bs
      | none => 0
    if valueLen < 0 then none
    else
      let p4 := readFull p3.2 valueLen.toNat
      let value : Bytes := match p4.1 with
        | some bs => bs
        | none => List.replicate valueLen.toNat 0
      let p5 := readFull p4.2 4
      let ttl : Int := match p5.1 with
        | some bs => int32OfLE bs
        | none => 0
      some ({ Key := key, Value := value, TTL := ttl }, p5.2)

/-- `func parseGetCommand(r io.Reader) *CommandGet`; same silent error
handling as `parseSetCommand`. -/
def parseGetCommand (s : List Nat) : Option (CommandGet × List Nat) :=
  let p1 := readFull s 4
  let keyLen : Int := match p1.1 with
    | some bs => int32OfLE bs
    | none => 0
  if keyLen < 0 then none
  else
    let p2 := readFull p1.2 keyLen.toNat
    let key : Bytes := match p2.1 with
      | some bs => bs
      | none => List.replicate keyLen.toNat 0
    some ({ Key := key }, p2.2)

/-- Outcome of `ParseCommand`: a successfully returned command with the
unconsumed rest of the stream, an explicitly returned error, or a Go
runtime panic inside the per-command parser. -/
inductive ParseResult where
  | ok (cmd : ParsedCommand) (rest : List Nat)
  | err (msg : String)
  | panicked
deriving DecidableEq, Repr

/-- `func ParseCommand(r io.Reader) (any, error)`. -/
def parseCommand (s : List Nat) : ParseResult :=
  -- var cmd Command; binary.Read returns an error on an empty source
  match s with
  | [] => .err "EOF"
  | b :: rest =>
    if b = cmdSet then
      match parseSetCommand rest with
      | some (c, r) => .ok (.pSet c) r
      | none => .panicked
    else if b = cmdGet then
      match parseGetCommand rest with
      | some (c, r) => .ok (.pGet c) r
      | none => .panicked
    else if b = cmdJoin then .ok .pJoin rest
    else .err "invalid command"

/-- `func ParseSetResponse(r io.Reader) (*ResponseSet, error)`: reads the
single status byte; the read error (empty source) is propagated. -/
def parseSetResponse (s : List Nat) : Except String (ResponseSet × List Nat) :=
  match s with
  | [] => .error "EOF"
  | b :: rest => .ok ({ Status := b }, rest)

/-- Outcome of `ParseGetResponse`: success, a propagated read error, or a
panic from `make([]byte, valueLen)` with negative `valueLen`. -/
inductive GetRespResult where
  | ok (r : ResponseGet) (rest : List Nat)
  | err (msg : String)
  | panicked
deriving DecidableEq, Repr

/-- `func ParseGetResponse(r io.Reader) (*ResponseGet, error)` (the variant
that checks each `binary.Read` error and returns it). -/
def parseGetResponse (s : List Nat) : GetRespResult :=
  match s with
  | [] => .err "EOF"
  | b :: rest =>
    let p1 := readFull rest 4
    match p1.1 with
    | none => .err "EOF reading valueLen"
    | some lenBytes =>
      let valueLen : Int := int32OfLE lenBytes
      -- resp.Value = make([]byte, valueLen): panics when valueLen < 0
      if valueLen < 0 then .panicked
      else
        let p2 := readFull p1.2 valueLen.toNat
        match p2.1 with
        | none => .err "EOF reading value"
        | some value => .ok { Status := b, Value := value } p2.2

/-! ## The cache store (`cache.go`)

`Cache` holds `data map[string][]byte`, modelled as an association list on
byte-string keys (most recent binding first, older bindings for the same key
erased, matching Go map semantics).  A `Set` with `ttl > 0` launches a
goroutine `<-time.After(ttl); delete(c.data, keyStr)`; that goroutine is
modelled as a pending `Timer` carrying its earliest firing instant
(`now + ttl`) and the captured key, and a scheduler transition `fireTimer`
that may execute it at any instant at or past the deadline.  The mutex only
serialises operations; in this interleaving model each operation is one
atomic step, which is exactly the linearisation the lock provides. -/

/-- Go map lookup `c.data[string(key)]`. -/
def mapLookup (k : Bytes) (m : List (Bytes × Bytes)) : Option Bytes :=
  (m.find? (fun e => e.1 == k)).map (·.2)

/-- Remove every binding of `k` (Go `delete(c.data, k)`). -/
def mapErase (k : Bytes) (m : List (Bytes × Bytes)) : List (Bytes × Bytes) :=
  m.filter (fun e => e.1 != k)

/-- Go map store `c.data[k] = v`: bind `k` to `v`, shadowing any old binding. -/
def mapInsert (k v : Bytes) (m : List (Bytes × Bytes)) : List (Bytes × Bytes) :=
  (k, v) :: mapErase k m

/-- A pending expiry goroutine: it blocks on `<-time.After(ttl)` until the
instant `deadline = now + ttl`, then deletes `key` from the map. -/
structure Timer where
  deadline : Int
  key : Bytes
deriving DecidableEq, Repr

/-- The `Cache` struct together with its in-flight expiry goroutines. -/
structure Cache where
  data : List (Bytes × Bytes)
  timers : List Timer
deriving DecidableEq, Repr

/-- `func New() *Cache`. -/
def Cache.new : Cache := { data := [], timers := [] }

/-- `func (c *Cache) Get(key []byte) ([]byte, error)`: map lookup under the
read lock; a miss returns the error `fmt.Errorf("key (%s) not found", key)`
(the message is modelled without the interpolated key). -/
def Cache.get (c : Cache) (key : Bytes) : Except String Bytes :=
  match mapLookup key c.data with
  | none => .error "key not found"
  | some val => .ok val

/-- `func (c *Cache) Set(key, value []byte, ttl time.Duration) error`:
stores the pair, and when `ttl > 0` spawns the expiry goroutine; always
returns `nil`.  `now` is the instant of the call, so the goroutine's timer
can fire from `now + ttl` on. -/
def Cache.set (c : Cache) (now : Int) (key value : Bytes) (ttl : Int) :
    Cache × Option String :=
  let c' : Cache :=
    { data := mapInsert key value c.data
      timers := if ttl > 0 then { deadline := now + ttl, key := key } :: c.timers
                else c.timers }
  (c', none)

/-- `func (c *Cache) Has(key []byte) bool`. -/
def Cache.has (c : Cache) (key : Bytes) : Bool :=
  (mapLookup key c.data).isSome

/-- `func (c *Cache) Delete(key []byte) error`: always returns `nil`. -/
def Cache.delete (c : Cache) (key : Bytes) : Cache × Option String :=
  ({ c with data := mapErase key c.data }, none)

/-- The scheduler runs the body of the `i`-th pending expiry goroutine at
instant `now`.  `time.After` only delivers once the deadline has passed, so
firing before the deadline is a no-op (the goroutine is still blocked); the
body itself is the unconditional `delete(c.data, keyStr)` of `Cache.Set`'s
closure. -/
def fireTimer (c : Cache) (now : Int) (i : Nat) : Cache :=
  match c.timers.get? i with
  | none => c
  | some t =>
    if t.deadline ≤ now then
      { data := mapErase t.key c.data, timers := c.timers.eraseIdx i }
    else c

/-- One step of the interleaving model: a store operation or a scheduler
step running a due expiry goroutine, each tagged with the instant at which
it executes.  `doGet`/`doHas` only read under the shared lock and leave the
state as is. -/
inductive CacheOp where
  | doSet (now : Int) (k v : Bytes) (ttl : Int)
  | doDelete (k : Bytes)
  | doGet (k : Bytes)
  | doHas (k : Bytes)
  | doFire (now : Int) (i : Nat)
deriving DecidableEq, Repr

/-- Apply one step to the cache state. -/
def applyOp (c : Cache) : CacheOp → Cache
  | .doSet now k v ttl => (c.set now k v ttl).1
  | .doDelete k => (c.delete k).1
  | .doGet _ => c
  | .doHas _ => c
  | .doFire now i => fireTimer c now i

/-- Run a sequence of steps. -/
def runOps (c : Cache) (ops : List CacheOp) : Cache :=
  ops.foldl applyOp c

/-- No pending expiry goroutine is waiting to delete `k`. -/
def noTimerFor (k : Bytes) (c : Cache) : Prop :=
  ∀ t ∈ c.timers, t.key ≠ k

instance (k : Bytes) (c : Cache) : Decidable (noTimerFor k c) := by
  unfold noTimerFor; infer_instance

/-- The step neither writes nor deletes key `k` (it may be any operation on
another key, any read, or any scheduler step). -/
def avoidsKey (k : Bytes) : CacheOp → Prop
  | .doSet _ k' _ _ => k' ≠ k
  | .doDelete k' => k' ≠ k
  | _ => True

/-! ## Connection handler dispatch (`example/server.go`) and the client -/

/-- `func (s *Server) handleGetCommand(conn net.Conn, cmd *proto.CommandGet) error`:
the response frame written back on the connection.  Any store error (the
only one `Cache.Get` produces is the key-not-found error) is mapped to
`StatusError`; on success the value is attached with `StatusOK`. -/
def handleGetCommand (c : Cache) (cmd : CommandGet) : ResponseGet :=
  match c.get cmd.Key with
  | .error _ => { Status := statusError, Value := [] }
  | .ok value => { Status := statusOK, Value := value }

/-- One peer connection as the replication fan-out sees it: the bytes that
have arrived on its inbound stream, whether `conn.Write` to it currently
succeeds, and the response bytes it has queued for the leader to read. -/
structure Peer where
  inbox : List Nat
  writeOk : Bool
  ackBytes : List Nat
deriving DecidableEq, Repr

/-- `func (c *Client) Set(ctx, key, value []byte, ttl int) error`
(`client/client.go`): write the encoded `CommandSet`; on write failure
return the error; otherwise block on `ParseSetResponse` reading the peer's
acknowledgement byte, propagate its error, and return an error unless the
acknowledged status is `StatusOK`. -/
def clientSet (p : Peer) (key value : Bytes) (ttl : Int) : Peer × Option String :=
  if p.writeOk then
    let p1 : Peer :=
      { p with inbox := p.inbox ++ CommandSet.bytes { Key := key, Value := value, TTL := ttl } }
    match parseSetResponse p1.ackBytes with
    | .error e => (p1, some e)
    | .ok (resp, rest) =>
      let p2 : Peer := { p1 with ackBytes := rest }
      if resp.Status = statusOK then (p2, none)
      else (p2, some "server responded with non OK status")
  else (p, some "write error")

/-- The loop body of the fan-out goroutine in `handleSetCommand`:
`for member := range s.members { err := member.Set(...); if err != nil { log } }`.
Returns the updated peers and the errors that were logged (and skipped). -/
def fanOut (peers : List Peer) (cmd : CommandSet) : List Peer × List String :=
  match peers with
  | [] => ([], [])
  | p :: rest =>
    let r := clientSet p cmd.Key cmd.Value cmd.TTL
    let rr := fanOut rest cmd
    (r.1 :: rr.1, match r.2 with | some msg => msg :: rr.2 | none => rr.2)

/-- `func (s *Server) handleSetCommand(conn net.Conn, cmd *proto.CommandSet) error`:
spawns the fan-out goroutine over the current members, performs
`s.cache.Set` (which never fails, so the `StatusError` branch is dead), and
writes back `ResponseSet{Status: StatusOK}`.  The result collects the new
cache, the peers as the detached fan-out leaves them, the logged fan-out
errors, and the acknowledgement sent to the originating client. -/
def handleSetCommand (c : Cache) (now : Int) (peers : List Peer)
    (cmd : CommandSet) : Cache × List Peer × List String × ResponseSet :=
  let fo := fanOut peers cmd
  let sr := c.set now cmd.Key cmd.Value cmd.TTL
  let resp : ResponseSet :=
    match sr.2 with
    | some _ => { Status := statusError }
    | none => { Status := statusOK }
  (sr.1, fo.1, fo.2, resp)

/-! ## Spec-side frame description (§4.1 of the specification)

For the layout claim the frame is re-described directly from the
specification's words — "tag=1, then `int32 keyLen, keyLen bytes key,
int32 valueLen, valueLen bytes value, int32 ttl`", all integers
little-endian, lengths signed 32-bit — with its own little-endian digit
function, to be compared against the encoder translated from the source. -/

/-- `w` little-endian base-256 digits of `u`. -/
def leBytes : Nat → Nat → List Nat
  | 0, _ => []
  | w + 1, u => u % 256 :: leBytes w (u / 256)

/-- A signed 32-bit integer on the wire, per the spec: the little-endian
bytes of its two's-complement pattern. -/
def int32LEspec (n : Int) : List Nat := leBytes 4 (n % (2 ^ 32 : Nat)).toNat

/-- The Set command frame as §4.1 words it: tag byte `1`, `int32 keyLen`,
the key bytes, `int32 valueLen`, the value bytes, `int32 ttl`. -/
def setFrameSpec (c : CommandSet) : List Nat :=
  [1] ++ int32LEspec c.Key.length ++ c.Key
      ++ int32LEspec c.Value.length ++ c.Value
      ++ int32LEspec c.TTL

/-! ## Helper lemmas -/

theorem putUint32LE_length (u : Nat) : (putUint32LE u).length = 4 := rfl

theorem int32LE_length (n : Int) : (int32LE n).length = 4 := rfl

theorem toUint32_lt (n : Int) : toUint32 n < 2 ^ 32 := by
  unfold toUint32
  omega

/-- Recomposing the four little-endian bytes recovers the 32-bit pattern. -/
theorem uint32OfLE_putUint32LE (u : Nat) (h : u < 2 ^ 32) :
    uint32OfLE (putUint32LE u) = u := by
  unfold uint32OfLE putUint32LE
  simp only [List.getD]
  norm_num
  omega

/-- An `int32` in range survives the encode/decode pair. -/
theorem int32OfLE_int32LE (n : Int) (h1 : -(2 ^ 31) ≤ n) (h2 : n < 2 ^ 31) :
    int32OfLE (int32LE n) = n := by
  unfold int32OfLE int32LE
  rw [uint32OfLE_putUint32LE _ (toUint32_lt n)]
  unfold int32OfUint32 toUint32
  split <;> omega

/-- Consuming exactly the length of the first chunk returns it and the rest. -/
theorem readFull_exact (a b : List Nat) (n : Nat) (h : a.length = n) :
    readFull (a ++ b) n = (some a, b) := by
  subst h
  unfold readFull
  rw [if_pos (by simp)]
  simp

/-- The shift-based byte extraction of `encoding/binary` computes the four
little-endian base-256 digits. -/
theorem leBytes_succ (w u : Nat) :
    leBytes (w + 1) u = u % 256 :: leBytes w (u / 256) := rfl

theorem putUint32LE_eq_leBytes (u : Nat) : putUint32LE u = leBytes 4 u := by
  have e4 : (4 : Nat) = 3 + 1 := rfl
  have e3 : (3 : Nat) = 2 + 1 := rfl
  have e2 : (2 : Nat) = 1 + 1 := rfl
  have e1 : (1 : Nat) = 0 + 1 := rfl
  rw [e4, leBytes_succ, e3, leBytes_succ, e2, leBytes_succ, e1, leBytes_succ]
  unfold putUint32LE leBytes
  norm_num [Nat.div_div_eq_div_mul]

/-- Consuming a whole source of the stated length returns all of it. -/
theorem readFull_all (a : List Nat) : readFull a a.length = (some a, []) := by
  unfold readFull
  simp

/-- A 4-byte read consumes exactly an encoded `int32`. -/
theorem readFull_int32LE (n : Int) :
    readFull (int32LE n) 4 = (some (int32LE n), []) := by
  rw [← int32LE_length n]
  exact readFull_all _

/-- Decoding the well-formed byte string laid down by `CommandSet.Bytes`
recovers the original fields. -/
theorem parseSetCommand_bytes (key value : Bytes) (ttl : Int)
    (hk : key.length < 2 ^ 31) (hv : value.length < 2 ^ 31)
    (h1 : -(2 ^ 31) ≤ ttl) (h2 : ttl < 2 ^ 31) :
    parseSetCommand (int32LE (Int.ofNat key.length) ++ key
        ++ int32LE (Int.ofNat value.length) ++ value ++ int32LE ttl)
      = some ({ Key := key, Value := value, TTL := ttl }, []) := by
  have ek : int32OfLE (int32LE (Int.ofNat key.length)) = Int.ofNat key.length :=
    int32OfLE_int32LE _ (by simp only [Int.ofNat_eq_natCast]; omega)
      (by simp only [Int.ofNat_eq_natCast]; omega)
  have ev : int32OfLE (int32LE (Int.ofNat value.length)) = Int.ofNat value.length :=
    int32OfLE_int32LE _ (by simp only [Int.ofNat_eq_natCast]; omega)
      (by simp only [Int.ofNat_eq_natCast]; omega)
  have et : int32OfLE (int32LE ttl) = ttl := int32OfLE_int32LE _ h1 h2
  unfold parseSetCommand
  rw [List.append_assoc, List.append_assoc, List.append_assoc,
    readFull_exact _ _ 4 (int32LE_length _)]
  dsimp only
  rw [ek]
  rw [if_neg (by simp only [Int.ofNat_eq_natCast]; omega)]
  rw [show (Int.ofNat key.length).toNat = key.length from rfl]
  rw [readFull_exact _ _ key.length rfl]
  dsimp only
  rw [readFull_exact _ _ 4 (int32LE_length _)]
  dsimp only
  rw [ev]
  rw [if_neg (by simp only [Int.ofNat_eq_natCast]; omega)]
  rw [show (Int.ofNat value.length).toNat = value.length from rfl]
  rw [readFull_exact _ _ value.length rfl]
  dsimp only
  rw [readFull_int32LE ttl]
  dsimp only
  rw [et]

/-- Decoding the byte string laid down by `CommandGet.Bytes` recovers the key. -/
theorem parseGetCommand_bytes (key : Bytes) (hk : key.length < 2 ^ 31) :
    parseGetCommand (int32LE (Int.ofNat key.length) ++ key)
      = some ({ Key := key }, []) := by
  have ek : int32OfLE (int32LE (Int.ofNat key.length)) = Int.ofNat key.length :=
    int32OfLE_int32LE _ (by simp only [Int.ofNat_eq_natCast]; omega)
      (by simp only [Int.ofNat_eq_natCast]; omega)
  unfold parseGetCommand
  rw [readFull_exact _ _ 4 (int32LE_length _)]
  dsimp only
  rw [ek]
  rw [if_neg (by simp only [Int.ofNat_eq_natCast]; omega)]
  rw [show (Int.ofNat key.length).toNat = key.length from rfl]
  rw [readFull_all key]

/-- The source encoder's little-endian int32 bytes agree with the spec's
digit description. -/
theorem int32LE_eq_spec (n : Int) : int32LE n = int32LEspec n := by
  unfold int32LE int32LEspec toUint32
  exact putUint32LE_eq_leBytes _

/-- `CommandSet.Bytes` in cons-normal form. -/
theorem commandSetBytes_eq (c : CommandSet) :
    CommandSet.bytes c
      = cmdSet :: (int32LE (Int.ofNat c.Key.length) ++ c.Key
          ++ int32LE (Int.ofNat c.Value.length) ++ c.Value ++ int32LE c.TTL) := by
  unfold CommandSet.bytes
  simp [List.append_assoc]

/-- `CommandGet.Bytes` in cons-normal form. -/
theorem commandGetBytes_eq (c : CommandGet) :
    CommandGet.bytes c = cmdGet :: (int32LE (Int.ofNat c.Key.length) ++ c.Key) := by
  unfold CommandGet.bytes
  simp [List.append_assoc]

/-- C7: For every key, value and ttl within int32 range, the encoded Set
command frame is exactly one byte with value 1 (the Set tag), then the key
length as a little-endian signed 32-bit integer, then the key bytes, then
the value length as a little-endian signed 32-bit integer, then the value
bytes, then the ttl as a little-endian signed 32-bit integer.  Proved for
all field values (the int32-range restriction is not even needed: out-of-
range lengths or ttl are truncated to their 32-bit pattern by the source's
`int32(...)` conversions, which the spec-side description shares). -/
theorem set_frame_layout (c : CommandSet) : CommandSet.bytes c = setFrameSpec c := by
  unfold CommandSet.bytes setFrameSpec cmdSet
  rw [int32LE_eq_spec, int32LE_eq_spec, int32LE_eq_spec]
  simp [Int.ofNat_eq_natCast]

/-- C2: decode(encode(x)) = x for every valid command value (Set with any
key/value whose length fits a signed int32 and any ttl in int32 range —
including zero-length key and value — Get with any such key, Join) and for
every valid response value (Set-ack with any status byte; Get-result with
any status byte and any value whose length fits a signed int32). -/
theorem decode_encode_roundtrip :
    (∀ c : CommandSet, c.Key.length < 2 ^ 31 → c.Value.length < 2 ^ 31 →
      -(2 ^ 31) ≤ c.TTL → c.TTL < 2 ^ 31 →
      parseCommand (CommandSet.bytes c) = .ok (.pSet c) []) ∧
    (∀ c : CommandGet, c.Key.length < 2 ^ 31 →
      parseCommand (CommandGet.bytes c) = .ok (.pGet c) []) ∧
    parseCommand commandJoinBytes = .ok .pJoin [] ∧
    (∀ r : ResponseSet, r.Status < 256 →
      parseSetResponse (ResponseSet.bytes r) = .ok (r, [])) ∧
    (∀ r : ResponseGet, r.Status < 256 → r.Value.length < 2 ^ 31 →
      parseGetResponse (ResponseGet.bytes r) = .ok r []) := by
  refine ⟨?_, ?_, by decide, ?_, ?_⟩
  · intro c hk hv h1 h2
    rw [commandSetBytes_eq]
    unfold parseCommand
    dsimp only
    rw [if_pos rfl]
    rw [parseSetCommand_bytes c.Key c.Value c.TTL hk hv h1 h2]
  · intro c hk
    rw [commandGetBytes_eq]
    unfold parseCommand
    dsimp only
    rw [if_neg (by decide), if_pos rfl]
    rw [parseGetCommand_bytes c.Key hk]
  · intro r h
    unfold ResponseSet.bytes parseSetResponse
    rw [Nat.mod_eq_of_lt h]
  · intro r hs hv
    have e : ResponseGet.bytes r
        = r.Status % 256 :: (int32LE (Int.ofNat r.Value.length) ++ r.Value) := by
      unfold ResponseGet.bytes
      simp [List.append_assoc]
    rw [e]
    unfold parseGetResponse
    dsimp only
    rw [readFull_exact _ _ 4 (int32LE_length _)]
    dsimp only
    rw [int32OfLE_int32LE _ (by simp only [Int.ofNat_eq_natCast]; omega)
      (by simp only [Int.ofNat_eq_natCast]; omega)]
    rw [if_neg (by simp only [Int.ofNat_eq_natCast]; omega)]
    rw [show (Int.ofNat r.Value.length).toNat = r.Value.length from rfl]
    rw [readFull_all r.Value]
    dsimp only
    rw [Nat.mod_eq_of_lt hs]

/-- Witness for C2's roundtrip at concrete inputs: the test vectors of
`protocol_test.go` (`Set{Key:"Foo", Value:"Bar", TTL:2}`, `Get{Key:"Foo"}`)
plus an empty-key/empty-value Set, a Join, a Set-ack and a Get-result. -/
theorem decode_encode_roundtrip_witness :
    parseCommand (CommandSet.bytes { Key := [70, 111, 111], Value := [66, 97, 114], TTL := 2 })
      = .ok (.pSet { Key := [70, 111, 111], Value := [66, 97, 114], TTL := 2 }) [] ∧
    parseCommand (CommandSet.bytes { Key := [], Value := [], TTL := 0 })
      = .ok (.pSet { Key := [], Value := [], TTL := 0 }) [] ∧
    parseCommand (CommandGet.bytes { Key := [70, 111, 111] })
      = .ok (.pGet { Key := [70, 111, 111] }) [] ∧
    parseCommand commandJoinBytes = .ok .pJoin [] ∧
    parseSetResponse (ResponseSet.bytes { Status := 1 }) = .ok ({ Status := 1 }, []) ∧
    parseGetResponse (ResponseGet.bytes { Status := 3, Value := [] })
      = .ok { Status := 3, Value := [] } [] :=
  ⟨decode_encode_roundtrip.1 _ (by decide) (by decide) (by decide) (by decide),
   decode_encode_roundtrip.1 _ (by decide) (by decide) (by decide) (by decide),
   decode_encode_roundtrip.2.1 _ (by decide),
   decode_encode_roundtrip.2.2.1,
   decode_encode_roundtrip.2.2.2.1 _ (by decide),
   decode_encode_roundtrip.2.2.2.2 _ (by decide) (by decide)⟩

/-- C3: what the decoder actually does on exhausted or negative-length
input.  A Set frame cut off right after the tag decodes "successfully" to
the all-default command; one cut off inside the key decodes to a
zero-padded key; a negative key length is not rejected but panics
(`make([]byte, -1)`); a Get frame cut off after the tag also decodes
"successfully".  None of these reports the explicit failure the claim
requires. -/
theorem truncated_decode_behavior :
    parseCommand [1] = .ok (.pSet { Key := [], Value := [], TTL := 0 }) [] ∧
    parseCommand [1, 3, 0, 0, 0, 70]
      = .ok (.pSet { Key := [0, 0, 0], Value := [], TTL := 0 }) [] ∧
    parseCommand [1, 255, 255, 255, 255] = .panicked ∧
    parseCommand [2] = .ok (.pGet { Key := [] }) [] := by
  decide

/-- C1: dispatching a Get for a key the store has no entry for makes
`handleGetCommand` reply with status `StatusError` (value empty) — not
`StatusKeyNotFound` as specified: `Cache.Get`'s error is mapped to the
generic error status.  The handler is a total function (no panic). -/
theorem get_missing_key_reply (c : Cache) (k : Bytes)
    (h : mapLookup k c.data = none) :
    handleGetCommand c { Key := k } = { Status := statusError, Value := [] } ∧
    statusError ≠ statusKeyNotFound := by
  constructor
  · unfold handleGetCommand Cache.get
    rw [h]
  · decide

/-- Witness for C1's behavior theorem: `Get{key="Missing"}` on an empty
store yields `GetResult{status=StatusError, value=""}`. -/
theorem get_missing_key_reply_witness :
    handleGetCommand Cache.new { Key := [77, 105, 115, 115, 105, 110, 103] }
      = { Status := statusError, Value := [] } ∧
    statusError ≠ statusKeyNotFound :=
  get_missing_key_reply Cache.new [77, 105, 115, 115, 105, 110, 103] (by decide)

/-! ## Map lemmas -/

theorem find?_filter_ne (k k' : Bytes) (m : List (Bytes × Bytes)) (h : k ≠ k') :
    List.find? (fun e => e.1 == k') (List.filter (fun e => e.1 != k) m)
      = List.find? (fun e => e.1 == k') m := by
  have hkk' : (k == k') = false := by simp [h]
  have hk'k : k' ≠ k := Ne.symm h
  induction m with
  | nil => rfl
  | cons e t ih =>
    by_cases he : e.1 = k
    · have he' : (e.1 == k') = false := by simp [he, h]
      simp [List.filter_cons, List.find?_cons, he, he', ih, hkk']
    · by_cases he' : e.1 = k'
      · simp [List.filter_cons, List.find?_cons, he, he', hk'k]
      · simp [List.filter_cons, List.find?_cons, he, he', ih]

theorem mapLookup_insert_self (k v : Bytes) (m : List (Bytes × Bytes)) :
    mapLookup k (mapInsert k v m) = some v := by
  simp [mapLookup, mapInsert, List.find?_cons]

theorem mapLookup_insert_ne (k k' v : Bytes) (m : List (Bytes × Bytes))
    (h : k ≠ k') : mapLookup k' (mapInsert k v m) = mapLookup k' m := by
  unfold mapLookup mapInsert mapErase
  rw [List.find?_cons_of_neg _ (by simp [h]), find?_filter_ne k k' m h]

theorem mapLookup_erase_self (k : Bytes) (m : List (Bytes × Bytes)) :
    mapLookup k (mapErase k m) = none := by
  have hnone : List.find? (fun e => e.1 == k) (List.filter (fun e => e.1 != k) m)
      = none := by
    rw [List.find?_eq_none]
    intro x hx
    simp only [List.mem_filter, bne_iff_ne, ne_eq] at hx
    simp [hx.2]
  unfold mapLookup mapErase
  rw [hnone]
  rfl

theorem mapLookup_erase_ne (k k' : Bytes) (m : List (Bytes × Bytes))
    (h : k ≠ k') : mapLookup k' (mapErase k m) = mapLookup k' m := by
  unfold mapLookup mapErase
  rw [find?_filter_ne k k' m h]

/-! ## Cache invariant lemmas -/

/-- A step that avoids key `k` preserves `k`'s binding and the absence of
pending expiry goroutines for `k`. -/
theorem applyOp_preserves_no_timer (k v : Bytes) (op : CacheOp) (c : Cache)
    (hl : mapLookup k c.data = some v) (ht : noTimerFor k c)
    (ha : avoidsKey k op) :
    mapLookup k (applyOp c op).data = some v ∧ noTimerFor k (applyOp c op) := by
  cases op with
  | doSet now k' v' ttl =>
    have hk' : k' ≠ k := ha
    constructor
    · show mapLookup k (mapInsert k' v' c.data) = some v
      rw [mapLookup_insert_ne k' k v' c.data hk']
      exact hl
    · intro t htm
      simp only [applyOp, Cache.set] at htm
      by_cases hp : ttl > 0
      · rw [if_pos hp] at htm
        rcases List.mem_cons.mp htm with h1 | h2
        · rw [h1]
          exact hk'
        · exact ht t h2
      · rw [if_neg hp] at htm
        exact ht t htm
  | doDelete k' =>
    have hk' : k' ≠ k := ha
    refine ⟨?_, ht⟩
    show mapLookup k (mapErase k' c.data) = some v
    rw [mapLookup_erase_ne k' k c.data hk']
    exact hl
  | doGet _ => exact ⟨hl, ht⟩
  | doHas _ => exact ⟨hl, ht⟩
  | doFire now i =>
    simp only [applyOp]
    unfold fireTimer
    cases hg : c.timers.get? i with
    | none => exact ⟨hl, ht⟩
    | some t =>
      dsimp only
      by_cases hd : t.deadline ≤ now
      · rw [if_pos hd]
        have htk : t.key ≠ k := ht t (List.get?_mem hg)
        constructor
        · show mapLookup k (mapErase t.key c.data) = some v
          rw [mapLookup_erase_ne t.key k c.data htk]
          exact hl
        · intro t' ht'
          exact ht t' (List.mem_of_mem_eraseIdx ht')
      · rw [if_neg hd]
        exact ⟨hl, ht⟩

/-- Trace version of `applyOp_preserves_no_timer`. -/
theorem runOps_preserves_no_timer (k v : Bytes) (ops : List CacheOp) :
    ∀ c : Cache, mapLookup k c.data = some v → noTimerFor k c →
      (∀ op ∈ ops, avoidsKey k op) →
      mapLookup k (runOps c ops).data = some v ∧ noTimerFor k (runOps c ops) := by
  induction ops with
  | nil => exact fun c hl ht _ => ⟨hl, ht⟩
  | cons op rest ih =>
    intro c hl ht ha
    have step := applyOp_preserves_no_timer k v op c hl ht (ha op (List.mem_cons_self _ _))
    exact ih (applyOp c op) step.1 step.2 fun o ho => ha o (List.mem_cons_of_mem _ ho)

/-- A step that avoids key `k`, and — if it is a scheduler step — runs
before instant `dl`, preserves `k`'s binding when every pending timer for
`k` has its deadline at or after `dl`. -/
theorem applyOp_preserves_fresh (k v : Bytes) (dl : Int) (op : CacheOp) (c : Cache)
    (hl : mapLookup k c.data = some v)
    (ht : ∀ t ∈ c.timers, t.key = k → dl ≤ t.deadline)
    (ha : avoidsKey k op)
    (hf : ∀ now i, op = CacheOp.doFire now i → now < dl) :
    mapLookup k (applyOp c op).data = some v ∧
      ∀ t ∈ (applyOp c op).timers, t.key = k → dl ≤ t.deadline := by
  cases op with
  | doSet now k' v' ttl =>
    have hk' : k' ≠ k := ha
    constructor
    · show mapLookup k (mapInsert k' v' c.data) = some v
      rw [mapLookup_insert_ne k' k v' c.data hk']
      exact hl
    · intro t htm htk
      simp only [applyOp, Cache.set] at htm
      by_cases hp : ttl > 0
      · rw [if_pos hp] at htm
        rcases List.mem_cons.mp htm with h1 | h2
        · rw [h1] at htk
          exact absurd htk hk'
        · exact ht t h2 htk
      · rw [if_neg hp] at htm
        exact ht t htm htk
  | doDelete k' =>
    have hk' : k' ≠ k := ha
    refine ⟨?_, ht⟩
    show mapLookup k (mapErase k' c.data) = some v
    rw [mapLookup_erase_ne k' k c.data hk']
    exact hl
  | doGet _ => exact ⟨hl, ht⟩
  | doHas _ => exact ⟨hl, ht⟩
  | doFire now i =>
    have hnow : now < dl := hf now i rfl
    simp only [applyOp]
    unfold fireTimer
    cases hg : c.timers.get? i with
    | none => exact ⟨hl, ht⟩
    | some t =>
      dsimp only
      by_cases hd : t.deadline ≤ now
      · rw [if_pos hd]
        have htk : t.key ≠ k := by
          intro hk
          have := ht t (List.get?_mem hg) hk
          omega
        constructor
        · show mapLookup k (mapErase t.key c.data) = some v
          rw [mapLookup_erase_ne t.key k c.data htk]
          exact hl
        · intro t' ht' hk'
          exact ht t' (List.mem_of_mem_eraseIdx ht') hk'
      · rw [if_neg hd]
        exact ⟨hl, ht⟩

/-- Trace version of `applyOp_preserves_fresh`. -/
theorem runOps_preserves_fresh (k v : Bytes) (dl : Int) (ops : List CacheOp) :
    ∀ c : Cache, mapLookup k c.data = some v →
      (∀ t ∈ c.timers, t.key = k → dl ≤ t.deadline) →
      (∀ op ∈ ops, avoidsKey k op) →
      (∀ now i, CacheOp.doFire now i ∈ ops → now < dl) →
      mapLookup k (runOps c ops).data = some v := by
  induction ops with
  | nil => exact fun c hl _ _ _ => hl
  | cons op rest ih =>
    intro c hl ht ha hf
    have step := applyOp_preserves_fresh k v dl op c hl ht (ha op (List.mem_cons_self _ _))
      (fun now i he => hf now i (he ▸ List.mem_cons_self _ _))
    exact ih (applyOp c op) step.1 step.2
      (fun o ho => ha o (List.mem_cons_of_mem _ ho))
      (fun now i hm => hf now i (List.mem_cons_of_mem _ hm))

/-- C8: `Has(k)` returns true exactly when `Get(k)` succeeds: both consult
the same map membership, and the store has no read-time expiry logic that
could make them disagree. -/
theorem has_iff_get_succeeds (c : Cache) (k : Bytes) :
    c.has k = true ↔ ∃ v, c.get k = Except.ok v := by
  unfold Cache.has Cache.get
  cases h : mapLookup k c.data <;> simp [h]

/-- C10: store operations are per-key: `Set(k1)` and `Delete(k1)` leave the
mapping of any other key `k2` unchanged, `Get` and `Has` leave the whole
state unchanged, and `Set`/`Delete` always return `nil`. -/
theorem store_ops_frame (s : Cache) (now : Int) (k1 k2 v : Bytes) (ttl : Int)
    (h : k1 ≠ k2) :
    mapLookup k2 (s.set now k1 v ttl).1.data = mapLookup k2 s.data ∧
    mapLookup k2 (s.delete k1).1.data = mapLookup k2 s.data ∧
    applyOp s (.doGet k1) = s ∧
    applyOp s (.doHas k1) = s ∧
    (s.set now k1 v ttl).2 = none ∧
    (s.delete k1).2 = none := by
  refine ⟨?_, ?_, rfl, rfl, rfl, rfl⟩
  · show mapLookup k2 (mapInsert k1 v s.data) = mapLookup k2 s.data
    exact mapLookup_insert_ne k1 k2 v s.data h
  · show mapLookup k2 (mapErase k1 s.data) = mapLookup k2 s.data
    exact mapLookup_erase_ne k1 k2 s.data h

/-- Witness for C10 at a concrete state and distinct keys. -/
theorem store_ops_frame_witness :
    ([1] : Bytes) ≠ [2] ∧
    (mapLookup [2] (((Cache.new.set 0 [2] [9] 0).1).set 0 [1] [7] 5).1.data
        = mapLookup [2] (Cache.new.set 0 [2] [9] 0).1.data ∧
      mapLookup [2] ((Cache.new.set 0 [2] [9] 0).1.delete [1]).1.data
        = mapLookup [2] (Cache.new.set 0 [2] [9] 0).1.data ∧
      applyOp (Cache.new.set 0 [2] [9] 0).1 (.doGet [1]) = (Cache.new.set 0 [2] [9] 0).1 ∧
      applyOp (Cache.new.set 0 [2] [9] 0).1 (.doHas [1]) = (Cache.new.set 0 [2] [9] 0).1 ∧
      (((Cache.new.set 0 [2] [9] 0).1).set 0 [1] [7] 5).2 = none ∧
      ((Cache.new.set 0 [2] [9] 0).1.delete [1]).2 = none) :=
  ⟨by decide, store_ops_frame (Cache.new.set 0 [2] [9] 0).1 0 [1] [2] [7] 5 (by decide)⟩

/-- C9: `Set` with `ttl ≤ 0` — zero or strictly negative — stores the entry
and schedules no removal (`if ttl > 0` guards the expiry goroutine), so
when no stale expiry goroutine for the key is already pending, the entry
survives any sequence of operations that neither overwrites nor deletes the
key; a removal is scheduled exactly when `ttl > 0`. -/
theorem set_nonpositive_ttl_no_expiry (s : Cache) (now : Int) (k v : Bytes)
    (ttl : Int) (httl : ttl ≤ 0) :
    (s.set now k v ttl).1.timers = s.timers ∧
    (s.set now k v ttl).1.get k = Except.ok v ∧
    (noTimerFor k s → ∀ ops : List CacheOp, (∀ op ∈ ops, avoidsKey k op) →
      (runOps (s.set now k v ttl).1 ops).get k = Except.ok v) ∧
    (∀ ttl2 : Int, 0 < ttl2 →
      (s.set now k v ttl2).1.timers
        = { deadline := now + ttl2, key := k } :: s.timers) := by
  have hset : (s.set now k v ttl).1
      = { data := mapInsert k v s.data, timers := s.timers } := by
    simp only [Cache.set]
    rw [if_neg (by omega)]
  refine ⟨?_, ?_, ?_, ?_⟩
  · rw [hset]
  · rw [hset]
    unfold Cache.get
    rw [show ({ data := mapInsert k v s.data, timers := s.timers } : Cache).data
        = mapInsert k v s.data from rfl, mapLookup_insert_self]
  · intro hnt ops ha
    have hl : mapLookup k (s.set now k v ttl).1.data = some v := by
      rw [hset]
      exact mapLookup_insert_self k v s.data
    have hnt' : noTimerFor k (s.set now k v ttl).1 := by
      rw [hset]
      exact hnt
    have res := runOps_preserves_no_timer k v ops (s.set now k v ttl).1 hl hnt' ha
    unfold Cache.get
    rw [res.1]
  · intro ttl2 h2
    simp only [Cache.set]
    rw [if_pos (by omega)]

/-- Witness for C9 at `ttl = -3` (strictly negative) on a store holding an
unrelated key, exercising every conjunct including a non-empty trace. -/
theorem set_nonpositive_ttl_no_expiry_witness :
    (-3 : Int) ≤ 0 ∧
    (((Cache.new.set 0 [2] [9] 0).1.set 1 [107] [118] (-3)).1.timers
        = (Cache.new.set 0 [2] [9] 0).1.timers ∧
      ((Cache.new.set 0 [2] [9] 0).1.set 1 [107] [118] (-3)).1.get [107]
        = Except.ok [118] ∧
      (noTimerFor [107] (Cache.new.set 0 [2] [9] 0).1 →
        ∀ ops : List CacheOp, (∀ op ∈ ops, avoidsKey [107] op) →
        (runOps ((Cache.new.set 0 [2] [9] 0).1.set 1 [107] [118] (-3)).1 ops).get [107]
          = Except.ok [118]) ∧
      (∀ ttl2 : Int, 0 < ttl2 →
        ((Cache.new.set 0 [2] [9] 0).1.set 1 [107] [118] ttl2).1.timers
          = { deadline := 1 + ttl2, key := [107] } :: (Cache.new.set 0 [2] [9] 0).1.timers)) :=
  ⟨by decide,
   set_nonpositive_ttl_no_expiry (Cache.new.set 0 [2] [9] 0).1 1 [107] [118] (-3) (by decide)⟩

/-- C4 counterexample: `set(k, v1, ttl=10)` at instant 0 schedules a
removal; `set(k, v2, ttl=0)` at instant 5 overwrites the entry before it
fires; when the stale timer fires at instant 10 it deletes the newer entry,
so the store no longer maps `k` according to the later operation — the
claimed conditioning of the removal on the entry's identity does not exist
in the code (`delete(c.data, keyStr)` is an unconditional delete-by-key). -/
theorem stale_timer_counterexample :
    ((Cache.new.set 0 [107] [118, 49] 10).1.set 5 [107] [118, 50] 0).1.get [107]
      = Except.ok [118, 50] ∧
    (fireTimer ((Cache.new.set 0 [107] [118, 49] 10).1.set 5 [107] [118, 50] 0).1
        10 0).get [107]
      = Except.error "key not found" := by
  exact ⟨rfl, rfl⟩

/-- C4 amended: the expiry goroutine scheduled by `Set` performs an
unconditional delete-by-key when it fires (at or after its deadline):
whatever entry the store then holds under that key — including one written
by a later `set` — is removed. -/
theorem stale_timer_deletes_by_key (c : Cache) (now : Int) (i : Nat) (t : Timer)
    (hg : c.timers.get? i = some t) (hd : t.deadline ≤ now) :
    (fireTimer c now i).get t.key = Except.error "key not found" := by
  unfold fireTimer
  rw [hg]
  dsimp only
  rw [if_pos hd]
  unfold Cache.get
  rw [show ({ data := mapErase t.key c.data, timers := c.timers.eraseIdx i } : Cache).data
      = mapErase t.key c.data from rfl, mapLookup_erase_self]

/-- Witness for the amended C4 theorem on the counterexample trace. -/
theorem stale_timer_deletes_by_key_witness :
    (fireTimer ((Cache.new.set 0 [107] [118, 49] 10).1.set 5 [107] [118, 50] 0).1
        10 0).get [107]
      = Except.error "key not found" :=
  stale_timer_deletes_by_key
    ((Cache.new.set 0 [107] [118, 49] 10).1.set 5 [107] [118, 50] 0).1
    10 0 { deadline := 10, key := [107] } (by decide) (by decide)

/-- C5 counterexample: after `set(k, v, ttl=10)` at instant 0, the expiry
goroutine is still pending (it has not been scheduled to run yet), and
`Cache.Get` consults only the map — it takes no notion of time and performs
no expiry check at read time.  So a read at instant 11, strictly after the
TTL deadline `0 + 10 < 11`, still returns `v`, contradicting "no reader
ever observes a value past its TTL, regardless of whether the background
expiry has already run". -/
theorem read_past_ttl_counterexample :
    (Cache.new.set 0 [107] [118] 10).1.get [107] = Except.ok [118] ∧
    (Cache.new.set 0 [107] [118] 10).1.timers = [{ deadline := 10, key := [107] }] ∧
    ((0 : Int) + 10 < 11) := by
  exact ⟨rfl, rfl, by decide⟩

/-- C5 amended: after `set(k, v, ttl=T)` at instant `t0` (with no stale
expiry goroutine for `k` pending), every read before `t0 + T` returns `v` —
the scheduled removal cannot fire before its deadline, and steps on other
keys do not disturb `k` — while a read reports "not found" only once the
scheduled removal has actually fired, which is possible from `t0 + T` on;
until that goroutine runs, readers continue to observe the value past its
TTL. -/
theorem ttl_freshness_amended (s : Cache) (t0 T : Int) (k v : Bytes)
    (hT : 0 < T) (hs : noTimerFor k s) :
    (s.set t0 k v T).1.get k = Except.ok v ∧
    (∀ ops : List CacheOp, (∀ op ∈ ops, avoidsKey k op) →
      (∀ now i, CacheOp.doFire now i ∈ ops → now < t0 + T) →
      (runOps (s.set t0 k v T).1 ops).get k = Except.ok v) ∧
    (∀ now : Int, now < t0 + T → fireTimer (s.set t0 k v T).1 now 0 = (s.set t0 k v T).1) ∧
    (∀ now : Int, t0 + T ≤ now →
      (fireTimer (s.set t0 k v T).1 now 0).get k = Except.error "key not found") := by
  have hset : (s.set t0 k v T).1
      = { data := mapInsert k v s.data
          timers := { deadline := t0 + T, key := k } :: s.timers } := by
    simp only [Cache.set]
    rw [if_pos (by omega)]
  have hl : mapLookup k (s.set t0 k v T).1.data = some v := by
    rw [hset]
    exact mapLookup_insert_self k v s.data
  refine ⟨?_, ?_, ?_, ?_⟩
  · unfold Cache.get
    rw [hl]
  · intro ops ha hf
    have ht : ∀ t ∈ (s.set t0 k v T).1.timers, t.key = k → t0 + T ≤ t.deadline := by
      rw [hset]
      intro t htm htk
      rcases List.mem_cons.mp htm with h1 | h2
      · rw [h1]
      · exact absurd htk (hs t h2)
    have res := runOps_preserves_fresh k v (t0 + T) ops (s.set t0 k v T).1 hl ht ha hf
    unfold Cache.get
    rw [res]
  · intro now hnow
    rw [hset]
    unfold fireTimer
    dsimp only [List.get?]
    rw [if_neg (by omega)]
  · intro now hnow
    rw [hset]
    unfold fireTimer
    dsimp only [List.get?]
    rw [if_pos (by omega)]
    unfold Cache.get
    dsimp only
    rw [mapLookup_erase_self]

/-- Witness for the amended C5 theorem: a fresh store, `set(k, v, T=10)` at
instant 0, a trace touching another key and an early scheduler step, then
the removal firing at instant 10. -/
theorem ttl_freshness_amended_witness :
    ((0 : Int) < 10 ∧ noTimerFor [107] Cache.new) ∧
    ((Cache.new.set 0 [107] [118] 10).1.get [107] = Except.ok [118] ∧
      (∀ ops : List CacheOp, (∀ op ∈ ops, avoidsKey [107] op) →
        (∀ now i, CacheOp.doFire now i ∈ ops → now < 0 + 10) →
        (runOps (Cache.new.set 0 [107] [118] 10).1 ops).get [107] = Except.ok [118]) ∧
      (∀ now : Int, now < 0 + 10 →
        fireTimer (Cache.new.set 0 [107] [118] 10).1 now 0
          = (Cache.new.set 0 [107] [118] 10).1) ∧
      (∀ now : Int, 0 + 10 ≤ now →
        (fireTimer (Cache.new.set 0 [107] [118] 10).1 now 0).get [107]
          = Except.error "key not found")) :=
  ⟨⟨by decide, by decide⟩,
   ttl_freshness_amended Cache.new 0 10 [107] [118] (by decide) (by decide)⟩

/-- C6 counterexample: the outcome of forwarding a Set to a peer depends on
the acknowledgement byte that peer sends back — `Client.Set` blocks on
`ParseSetResponse` and inspects the status — so an acknowledgement IS
awaited from each peer, contradicting "no acknowledgement is awaited from
any peer".  Two peers identical except for their queued acknowledgement
produce different outcomes. -/
theorem fanout_awaits_ack_counterexample :
    (clientSet { inbox := [], writeOk := true, ackBytes := [statusOK] } [107] [118] 0).2
      = none ∧
    (clientSet { inbox := [], writeOk := true, ackBytes := [statusError] } [107] [118] 0).2
      = some "server responded with non OK status" := by
  exact ⟨rfl, rfl⟩

/-- C6 amended: the fan-out loop calls `Client.Set` on every member in
turn; each call whose write succeeds delivers an equivalent encoded Set
command to that peer and then reads and checks the peer's one-byte Set
acknowledgement (an error or non-OK status is logged and skipped); a
failure at one peer does not prevent the remaining peers from being
processed (each resulting peer depends only on its own prior state), and
the acknowledgement returned to the originating client is `StatusOK`
regardless of the peers. -/
theorem replication_fanout_amended :
    (∀ (peers : List Peer) (cmd : CommandSet) (i : Nat),
      (fanOut peers cmd).1.get? i
        = (peers.get? i).map fun p => (clientSet p cmd.Key cmd.Value cmd.TTL).1) ∧
    (∀ (p : Peer) (key value : Bytes) (ttl : Int), p.writeOk = true →
      (clientSet p key value ttl).1.inbox
        = p.inbox ++ CommandSet.bytes { Key := key, Value := value, TTL := ttl }) ∧
    (∀ (p : Peer) (key value : Bytes) (ttl : Int) (st : Nat) (rest : List Nat),
      p.writeOk = true → p.ackBytes = st :: rest →
      ((clientSet p key value ttl).2 = none ↔ st = statusOK)) ∧
    (∀ (c : Cache) (now : Int) (peers : List Peer) (cmd : CommandSet),
      (handleSetCommand c now peers cmd).2.2.2 = { Status := statusOK } ∧
      (handleSetCommand c now peers cmd).1 = (c.set now cmd.Key cmd.Value cmd.TTL).1) := by
  refine ⟨?_, ?_, ?_, fun c now peers cmd => ⟨rfl, rfl⟩⟩
  · intro peers cmd
    induction peers with
    | nil => intro i; cases i <;> rfl
    | cons p rest ih =>
      intro i
      cases i with
      | zero => rfl
      | succ j =>
        show (fanOut (p :: rest) cmd).1.get? (j + 1) = _
        have e : (fanOut (p :: rest) cmd).1
            = (clientSet p cmd.Key cmd.Value cmd.TTL).1 :: (fanOut rest cmd).1 := rfl
        rw [e]
        exact ih j
  · intro p key value ttl hw
    unfold clientSet
    rw [hw]
    simp only [if_true]
    cases hab : parseSetResponse p.ackBytes with
    | error e => rfl
    | ok pr =>
      dsimp only
      by_cases hst : pr.1.Status = statusOK
      · rw [if_pos hst]
      · rw [if_neg hst]
  · intro p key value ttl st rest hw hab
    unfold clientSet
    rw [hw]
    simp only [if_true]
    rw [show ({ p with
          inbox := p.inbox ++ CommandSet.bytes { Key := key, Value := value, TTL := ttl } }
          : Peer).ackBytes = p.ackBytes from rfl, hab]
    rw [show parseSetResponse (st :: rest) = Except.ok ({ Status := st }, rest) from rfl]
    dsimp only
    by_cases hst : st = statusOK
    · rw [if_pos (show ({ Status := st } : ResponseSet).Status = statusOK from hst)]
      simp [hst]
    · rw [if_neg (show ¬ ({ Status := st } : ResponseSet).Status = statusOK from hst)]
      simp [hst]

/-- Witness for the amended C6 theorem: two peers, the second one with a
failing connection; the first receives the frame and acknowledges OK. -/
theorem replication_fanout_amended_witness :
    (fanOut [{ inbox := [], writeOk := true, ackBytes := [statusOK] },
             { inbox := [], writeOk := false, ackBytes := [] }]
        { Key := [107], Value := [118], TTL := 0 }).1.get? 0
      = some { inbox := CommandSet.bytes { Key := [107], Value := [118], TTL := 0 },
               writeOk := true, ackBytes := [] } ∧
    (clientSet { inbox := [], writeOk := true, ackBytes := [statusOK] } [107] [118] 0).1.inbox
      = [] ++ CommandSet.bytes { Key := [107], Value := [118], TTL := 0 } ∧
    ((clientSet { inbox := [], writeOk := true, ackBytes := [statusOK] } [107] [118] 0).2 = none
      ↔ statusOK = statusOK) ∧
    (handleSetCommand Cache.new 0
        [{ inbox := [], writeOk := false, ackBytes := [] }]
        { Key := [107], Value := [118], TTL := 0 }).2.2.2 = { Status := statusOK } := by
  refine ⟨?_, ?_, ?_, ?_⟩
  · rw [replication_fanout_amended.1
      [{ inbox := [], writeOk := true, ackBytes := [statusOK] },
       { inbox := [], writeOk := false, ackBytes := [] }]
      { Key := [107], Value := [118], TTL := 0 } 0]
    rfl
  · exact replication_fanout_amended.2.1
      { inbox := [], writeOk := true, ackBytes := [statusOK] } [107] [118] 0 rfl
  · exact replication_fanout_amended.2.2.1
      { inbox := [], writeOk := true, ackBytes := [statusOK] } [107] [118] 0
      statusOK [] rfl rfl
  · exact (replication_fanout_amended.2.2.2 Cache.new 0
      [{ inbox := [], writeOk := false, ackBytes := [] }]
      { Key := [107], Value := [118], TTL := 0 }).1

end GGCache
